import Mathlib

/-!
Shallow embedding of cookieo9/datacode (datacode.go), a build time code
generator that embeds file contents into generated Go source. Go runes and
bytes are modelled as natural numbers; Go strings are lists of rune code
points and Go byte slices are lists of byte values. External collaborators
(the flate compressor pair, the gofmt formatter, the package resolver, the
file system and the stat call) are parameters of the model.
-/

/-- Rune code points of a Lean string literal, used to state concrete cases. -/
def str (s : String) : List Nat := s.toList.map Char.toNat

/-- Model of Go strings.TrimPrefix: drop pre when s starts with it, no op
otherwise. -/
def trimPrefixStr (s pre : List Nat) : List Nat :=
  if pre.isPrefixOf s then s.drop pre.length else s

/-- Model of Go strings.TrimSuffix: drop suf when s ends with it, no op
otherwise. -/
def trimSuffixStr (s suf : List Nat) : List Nat :=
  if suf.isSuffixOf s then s.take (s.length - suf.length) else s

/-- ASCII decimal digit class; unicode.IsDigit agrees with it below code
point 128. -/
def asciiDigit (r : Nat) : Bool := decide (48 ≤ r ∧ r ≤ 57)

/-- ASCII letter class; unicode.IsLetter agrees with it below code point
128. -/
def asciiLetterRune (r : Nat) : Bool :=
  decide ((65 ≤ r ∧ r ≤ 90) ∨ (97 ≤ r ∧ r ≤ 122))

/-- Replacement rune function rep from file.Func in datacode.go: keep
digits, letters and every rune above 127, map anything else to an
underscore (code point 95). The Go code tests IsDigit, IsLetter, then
r above 127; below 128 the Unicode classes equal the ASCII ones and above
127 the last disjunct keeps the rune whatever the classes say, so testing
the range first is equivalent. -/
def rep (r : Nat) : Nat :=
  if 127 < r then r
  else if asciiDigit r || asciiLetterRune r then r
  else 95

/-- Model of the rune mapping of Go strings.ToLower: ASCII upper case
letters map to lower case. Simple case mappings of code points above 127
are not modelled (identity there); no code point above 127 that this
development evaluates has a lower case mapping. -/
def goToLowerRune (r : Nat) : Nat := if 65 ≤ r ∧ r ≤ 90 then r + 32 else r

/-- Model of Go strings.Trim with a cutset holding only the underscore:
remove leading and trailing underscores. -/
def trimUnderscores (s : List Nat) : List Nat :=
  ((s.dropWhile (fun r => r == 95)).reverse.dropWhile (fun r => r == 95)).reverse

/-- The config struct of datacode.go, built in main from the parsed flags. -/
structure config where
  Package : List Nat
  PrefixStr : List Nat
  SuffixStr : List Nat
  Args : List (List Nat)
  Compress : Bool
  CompressLevel : Int
  deriving DecidableEq

/-- The file struct of datacode.go; the Go struct embeds a config pointer,
modelled as the cfg field. -/
structure file where
  cfg : config
  Path : List Nat
  deriving DecidableEq

/-- file.Func from datacode.go: derive the generated function identifier
from the path by stripping the configured affixes, applying rep to every
rune, lowering the result and trimming underscores at both ends. -/
def file.Func (f : file) : List Nat :=
  trimUnderscores
    (((trimSuffixStr (trimPrefixStr f.Path f.cfg.PrefixStr) f.cfg.SuffixStr).map rep).map
      goToLowerRune)

/-- The identifier derivation as the specification words it, step by step:
strip the affixes, keep digits, letters and runes above the 7 bit range
while mapping every other rune to an underscore, lower case the whole
result, then trim leading and trailing underscores. -/
def derive (path pre suf : List Nat) : List Nat :=
  let step1 := trimSuffixStr (trimPrefixStr path pre) suf
  let step2 := step1.map rep
  let step3 := step2.map goToLowerRune
  trimUnderscores step3

/-- C2: file.Func computes the identifier by exactly the four documented
steps in that order, and on path assets/logo.png with the assets/ and .png
affixes the derived identifier is logo. -/
theorem func_spec_steps_and_example :
    (∀ (c : config) (p : List Nat),
      file.Func { cfg := c, Path := p } = derive p c.PrefixStr c.SuffixStr)
    ∧ file.Func
        { cfg := { Package := str "main", PrefixStr := str "assets/",
                   SuffixStr := str ".png", Args := [str "assets/logo.png"],
                   Compress := true, CompressLevel := -1 },
          Path := str "assets/logo.png" } = str "logo" := by
  refine ⟨fun c p => rfl, by decide⟩

/-- Letter test for code points above 127, modelled from the Unicode tables
behind unicode.IsLetter on the only ranges this development evaluates: the
Latin 1 supplement letters; the euro sign U+20AC (8364), a currency symbol,
lies outside every letter range. -/
def goIsLetterHigh (r : Nat) : Bool :=
  decide ((192 ≤ r ∧ r ≤ 214) ∨ (216 ≤ r ∧ r ≤ 246) ∨ (248 ≤ r ∧ r ≤ 255))

/-- Runes in the claimed output character set: lower case ASCII letters,
ASCII digits and the underscore. -/
def lowerAlnumU (r : Nat) : Bool :=
  decide (97 ≤ r ∧ r ≤ 122) || asciiDigit r || r == 95

/-- The output charset claim as stated: unless the path holds a letter
above the 7 bit range, every rune of the derived identifier lies in the
lower case alphanumeric and underscore set. -/
def outputCharsetClaim : Prop :=
  ∀ (c : config) (p : List Nat),
    (∀ r ∈ p, ¬(127 < r ∧ goIsLetterHigh r = true)) →
    ∀ r ∈ file.Func { cfg := c, Path := p }, lowerAlnumU r = true

/-- C5 counterexample: the euro sign U+20AC is not a letter, yet it passes
through derivation unchanged, so the derived identifier holds a rune
outside the claimed set although the path holds no letter above the 7 bit
range. -/
theorem func_output_charset_claim_false : ¬ outputCharsetClaim := by
  intro h
  have h8364 := h
    { Package := [], PrefixStr := [], SuffixStr := [], Args := [],
      Compress := true, CompressLevel := -1 }
    [8364] (by decide) 8364 (by decide)
  exact absurd h8364 (by decide)

/-- Runes of a trimmed list are runes of the list. -/
theorem mem_of_mem_dropWhile {r : Nat} {p : Nat → Bool} {s : List Nat}
    (h : r ∈ s.dropWhile p) : r ∈ s :=
  (List.dropWhile_sublist p).mem h

/-- Membership survives trimUnderscores backwards. -/
theorem mem_of_mem_trimUnderscores {r : Nat} {s : List Nat}
    (h : r ∈ trimUnderscores s) : r ∈ s := by
  unfold trimUnderscores at h
  have h1 := mem_of_mem_dropWhile (List.mem_reverse.mp h)
  exact mem_of_mem_dropWhile (List.mem_reverse.mp h1)

/-- Every rune rep and the lower casing produce is in the claimed set or
above the 7 bit range. -/
theorem rep_lower_charset (a : Nat) :
    lowerAlnumU (goToLowerRune (rep a)) = true ∨ 127 < goToLowerRune (rep a) := by
  unfold rep goToLowerRune lowerAlnumU asciiDigit asciiLetterRune
  split_ifs <;> simp_all
  omega

/-- C5 amended: every rune of the derived identifier is a lower case ASCII
letter, an ASCII digit or an underscore, unless it lies above the 7 bit
range; all runes above 127 pass through derivation, letters or not. -/
theorem func_output_charset_amended (c : config) (p : List Nat) :
    ∀ r ∈ file.Func { cfg := c, Path := p }, lowerAlnumU r = true ∨ 127 < r := by
  intro r hr
  have hr2 := mem_of_mem_trimUnderscores hr
  simp only [List.mem_map] at hr2
  obtain ⟨b, ⟨a, _, hab⟩, hb⟩ := hr2
  subst hab
  subst hb
  exact rep_lower_charset a

/-- Witness for the amended C5 statement at a concrete path. -/
theorem func_output_charset_amended_witness :
    lowerAlnumU 97 = true ∨ 127 < 97 :=
  func_output_charset_amended
    { Package := [], PrefixStr := [], SuffixStr := [], Args := [],
      Compress := true, CompressLevel := -1 }
    (str "a-b") 97 (by decide)

/-- Lower case hexadecimal digit rune of a value below 16, as the Go fmt
package prints the x verb. -/
def hexDigitL (n : Nat) : Nat := if n < 10 then 48 + n else 87 + n

/-- One byte as the four rune escape sequence that file.Raw prints for it:
backslash, x, then the two hex digits of the byte; the dot two precision of
the format makes the width fixed for every byte value. -/
def escByte (b : Nat) : List Nat := [92, 120, hexDigitL (b / 16), hexDigitL (b % 16)]

/-- The textual literal file.Raw builds: the escape sequences of all
payload bytes concatenated with no separators. -/
def rawEncode (data : List Nat) : List Nat := (data.map escByte).flatten

/-- Length of the literal grows by exactly four runes per byte. -/
theorem rawEncode_length (data : List Nat) :
    (rawEncode data).length = 4 * data.length := by
  induction data with
  | nil => rfl
  | cons a t ih =>
    have h1 : rawEncode (a :: t) = escByte a ++ rawEncode t := rfl
    rw [h1, List.length_append, ih, show (escByte a).length = 4 from rfl,
      List.length_cons]
    omega

/-- C4: the literal renders every payload byte as a fixed width two hex
digit escape sequence and its length is exactly four runes per payload
byte. -/
theorem raw_fixed_width_hex (data : List Nat) (_h : ∀ b ∈ data, b < 256) :
    rawEncode data = (data.map escByte).flatten
    ∧ (∀ b ∈ data,
        escByte b = [92, 120, hexDigitL (b / 16), hexDigitL (b % 16)]
        ∧ (escByte b).length = 4)
    ∧ (rawEncode data).length = 4 * data.length :=
  ⟨rfl, fun _ _ => ⟨rfl, rfl⟩, rawEncode_length data⟩

/-- Witness for C4 at a concrete payload. -/
theorem raw_fixed_width_hex_witness :
    rawEncode [0, 171, 255] = ([0, 171, 255].map escByte).flatten
    ∧ (∀ b ∈ [0, 171, 255],
        escByte b = [92, 120, hexDigitL (b / 16), hexDigitL (b % 16)]
        ∧ (escByte b).length = 4)
    ∧ (rawEncode [0, 171, 255]).length = 4 * ([0, 171, 255] : List Nat).length :=
  raw_fixed_width_hex [0, 171, 255] (by decide)

/-- Value of a hexadecimal digit rune, as the Go lexer reads it inside an
escape sequence of an interpreted string literal. -/
def hexVal (r : Nat) : Option Nat :=
  if 48 ≤ r ∧ r ≤ 57 then some (r - 48)
  else if 97 ≤ r ∧ r ≤ 102 then some (r - 87)
  else if 65 ≤ r ∧ r ≤ 70 then some (r - 55)
  else none

/-- Go interpreted string literal unquoting, restricted to what file.Raw
can emit: a backslash introduces an escape and only the x form with two hex
digits is modelled; a plain printable ASCII rune other than the quote
stands for its own byte; anything else is rejected. -/
def goUnescape : List Nat → Option (List Nat)
  | [] => some []
  | c :: rest =>
    if c = 92 then
      match rest with
      | 120 :: h1 :: h2 :: rest2 =>
        match hexVal h1, hexVal h2, goUnescape rest2 with
        | some a, some b, some d => some ((16 * a + b) :: d)
        | _, _, _ => none
      | _ => none
    else if c = 34 ∨ 127 < c ∨ c < 32 then none
    else (goUnescape rest).map (fun d => c :: d)

/-- Runtime body of a generated function, from tmplText in datacode.go: the
compiled literal is read back (goUnescape models what the Go compiler made
of the quoted literal), then either copied through unchanged by io.Copy or
run through the flate reader, modelled by the inflate argument; a failing
decompression surfaces as none, the error return of the generated
function. -/
def generatedDecode (compressed : Bool)
    (inflate : List Nat → Option (List Nat)) (lit : List Nat) : Option (List Nat) :=
  match goUnescape lit with
  | none => none
  | some d => if compressed then inflate d else some d

/-- Unquoting a hex digit of a value below 16 gives the value back. -/
theorem hexVal_hexDigitL (n : Nat) (h : n < 16) : hexVal (hexDigitL n) = some n := by
  unfold hexVal hexDigitL
  split_ifs <;> simp_all <;> omega

/-- Unquoting one escape sequence in front of a remaining literal yields
the byte in front of whatever the rest unquotes to. -/
theorem goUnescape_escByte (b : Nat) (hb : b < 256) (rest : List Nat) :
    goUnescape (escByte b ++ rest) = (goUnescape rest).map (fun d => b :: d) := by
  have hdiv : b / 16 < 16 := by omega
  have hmod : b % 16 < 16 := by omega
  have hb16 : 16 * (b / 16) + b % 16 = b := by omega
  simp only [escByte, List.cons_append, List.nil_append, goUnescape,
    hexVal_hexDigitL _ hdiv, hexVal_hexDigitL _ hmod, if_pos rfl]
  cases hrest : goUnescape rest <;> simp [hrest, hb16]

/-- Unquoting the escaped byte literal recovers the exact byte sequence. -/
theorem goUnescape_rawEncode (d : List Nat) (h : ∀ b ∈ d, b < 256) :
    goUnescape (rawEncode d) = some d := by
  induction d with
  | nil => rfl
  | cons b t ih =>
    have hb : b < 256 := h b (List.mem_cons_self b t)
    have ht : ∀ x ∈ t, x < 256 := fun x hx => h x (List.mem_cons_of_mem b hx)
    have h1 : rawEncode (b :: t) = escByte b ++ rawEncode t := rfl
    rw [h1, goUnescape_escByte b hb, ih ht]
    rfl

/-- C1: with compression off the emitted decode routine inverts the textual
encoding exactly; with compression on, whenever the flate pair at the
chosen level round trips (the documented contract of the external
compress/flate library) and the compressor emits bytes, the emitted decode
routine applied to the literal of the compressed payload returns the
original bytes. -/
theorem decode_encode_roundtrip (deflate : Int → List Nat → List Nat)
    (lvl : Int) (inflate : List Nat → Option (List Nat)) (B : List Nat)
    (hB : ∀ b ∈ B, b < 256) (hC : ∀ b ∈ deflate lvl B, b < 256)
    (hround : inflate (deflate lvl B) = some B) :
    generatedDecode false inflate (rawEncode B) = some B
    ∧ generatedDecode true inflate (rawEncode (deflate lvl B)) = some B := by
  constructor
  · simp [generatedDecode, goUnescape_rawEncode B hB]
  · simp [generatedDecode, goUnescape_rawEncode _ hC, hround]

/-- Witness for C1 with the identity compressor pair at a concrete
payload. -/
theorem decode_encode_roundtrip_witness :
    generatedDecode false some (rawEncode [0, 171, 255]) = some [0, 171, 255]
    ∧ generatedDecode true some (rawEncode [0, 171, 255]) = some [0, 171, 255] :=
  decode_encode_roundtrip (fun _ d => d) (-1) some [0, 171, 255]
    (by decide) (by decide) (by decide)

/-- File system model behind ioutil.ReadFile: path to file bytes, or to a
read error text. -/
abbrev FS : Type := List Nat → Except (List Nat) (List Nat)

/-- file.data from datacode.go: read the file, then compress it at the
configured level when compression is on. The flate writer pipeline of
file.pack is the deflate argument, an abstract external collaborator
indexed by the level; construction or write failures of the flate writer
are not modelled, the levels the tool passes construct it successfully. -/
def file.data (deflate : Int → List Nat → List Nat) (fs : FS) (f : file) :
    Except (List Nat) (List Nat) :=
  match fs f.Path with
  | .error e => .error e
  | .ok d => .ok (if f.cfg.Compress then deflate f.cfg.CompressLevel d else d)

/-- file.Raw from datacode.go: hex escape the payload into the literal and
print the whole literal with a trailing newline to standard output. The
model returns the literal together with the printed line (rune 10 is the
newline fmt.Println appends). -/
def file.Raw (deflate : Int → List Nat → List Nat) (fs : FS) (f : file) :
    Except (List Nat) (List Nat × List Nat) :=
  match file.data deflate fs f with
  | .error e => .error e
  | .ok d => .ok (rawEncode d, rawEncode d ++ [10])

/-- Seen set scan of config.Files: the first derived name already seen is
the reported duplicate. -/
def findDup : List (List Nat) → List (List Nat) → Option (List Nat)
  | [], _ => none
  | n :: rest, seen => if n ∈ seen then some n else findDup rest (n :: seen)

/-- Error text of the duplicate check in config.Files. -/
def dupMsg (name : List Nat) : List Nat :=
  str "duplicate function detected: " ++ name

/-- config.Files from datacode.go: build one file value per positional
argument, then fail on the first duplicate derived function name before
returning the list. -/
def config.Files (c : config) : Except (List Nat) (List file) :=
  let out := c.Args.map (fun a => ({ cfg := c, Path := a } : file))
  match findDup (out.map file.Func) [] with
  | some n => .error (dupMsg n)
  | none => .ok out

/-- Fixed template text of tmplText up to the range action: the package
clause, the import block, and the flate import exactly when compression is
on. Go template actions contribute only their own output and the literal
text around them is kept verbatim. -/
def headerText (pkg : List Nat) (comp : Bool) : List Nat :=
  str "package " ++ pkg
  ++ str "\nimport (\n\t\"bytes\"\n\t\"strings\"\n\t\"io\"\n"
  ++ (if comp then str "\n\t\"compress/flate\"\n" else [])
  ++ str "\n)\n"

/-- Template text of one generated function up to its embedded literal. -/
def funcTextPre (name : List Nat) : List Nat :=
  str "\nfunc " ++ name ++ str " () ([]byte, error) \x7b\n\tdata := \""

/-- Template text of one generated function after its embedded literal:
the reader setup and either the flate decoding branch or the plain copy
branch of tmplText. -/
def funcTextPost (comp : Bool) : List Nat :=
  str "\"\n\tin := strings.NewReader(data)\n\tout := new(bytes.Buffer)\n\t"
  ++ (if comp then
        str "\n\tr := flate.NewReader(in)\n\tif _, err := io.Copy(out,r) ; err != nil \x7b\n\t\treturn nil, err\n\t\x7d\n\tif err := r.Close(); err != nil \x7b\n\t\treturn nil, err\n\t\x7d\n\t"
      else
        str "\n\tif _, err := io.Copy(out, in) ; err != nil \x7b\n\t\treturn nil, err\n\t\x7d\n\t")
  ++ str "\n\treturn out.Bytes(), nil\n\x7d\n"

/-- Range body of tmplText over the files: per file the rendered function
text and the line file.Raw printed to standard output; the first Raw error
aborts template execution. -/
def renderAll (deflate : Int → List Nat → List Nat) (fs : FS) :
    List file → Except (List Nat) (List (List Nat × List Nat))
  | [] => .ok []
  | f :: rest =>
    match file.Raw deflate fs f with
    | .error e => .error e
    | .ok (lit, line) =>
      match renderAll deflate fs rest with
      | .error e => .error e
      | .ok ps =>
        .ok ((funcTextPre (file.Func f) ++ lit ++ funcTextPost f.cfg.Compress,
              line) :: ps)

/-- tmpl.Execute on the config, from doIt in datacode.go: Files runs first
(the duplicate check), then the header and one function per file are
rendered in order. The result pairs the rendered document with the
standard output the run printed. -/
def execute (deflate : Int → List Nat → List Nat) (fs : FS) (c : config) :
    Except (List Nat) (List Nat × List Nat) :=
  match c.Files with
  | .error e => .error e
  | .ok files =>
    match renderAll deflate fs files with
    | .error e => .error e
    | .ok ps =>
      .ok (headerText c.Package c.Compress ++ (ps.map Prod.fst).flatten ++ str "\n",
           (ps.map Prod.snd).flatten)

/-- doIt from datacode.go: execute the template, then return the rendered
text as is when gofmt is off, else hand it to the external formatter
(format.Source) and return whatever the formatter returns. -/
def doIt (deflate : Int → List Nat → List Nat) (fs : FS)
    (fmtr : List Nat → Except (List Nat) (List Nat)) (c : config)
    (gofmt : Bool) : Except (List Nat) (List Nat) :=
  match execute deflate fs c with
  | .error e => .error e
  | .ok (data, _) => if gofmt then fmtr data else .ok data

/-- A scan that finds no duplicate saw pairwise distinct names, none of
them in the seen set it started from. -/
theorem findDup_none_strong (l : List (List Nat)) :
    ∀ seen, findDup l seen = none → l.Nodup ∧ ∀ m ∈ l, m ∉ seen := by
  induction l with
  | nil => exact fun seen _ => ⟨List.nodup_nil, fun m hm => absurd hm (List.not_mem_nil m)⟩
  | cons n rest ih =>
    intro seen h
    unfold findDup at h
    by_cases hm : n ∈ seen
    · simp [hm] at h
    · rw [if_neg hm] at h
      obtain ⟨hnd, hout⟩ := ih (n :: seen) h
      have hnr : n ∉ rest := fun hin =>
        absurd (List.mem_cons_self n seen) (hout n hin)
      refine ⟨List.nodup_cons.mpr ⟨hnr, hnd⟩, fun m hmem => ?_⟩
      rcases List.mem_cons.mp hmem with hcase | hcase
      · exact hcase ▸ hm
      · exact fun hms => (hout m hcase) (List.mem_cons_of_mem n hms)

/-- A name the scan reports was already in the seen set, or stands at
least twice in the scanned list. -/
theorem findDup_some_count (l : List (List Nat)) :
    ∀ seen n, findDup l seen = some n →
      (n ∈ seen ∧ n ∈ l) ∨ 2 ≤ l.count n := by
  induction l with
  | nil => intro seen n h; exact absurd h (by simp [findDup])
  | cons m rest ih =>
    intro seen n h
    unfold findDup at h
    by_cases hm : m ∈ seen
    · rw [if_pos hm] at h
      obtain rfl : m = n := Option.some.inj h
      exact Or.inl ⟨hm, List.mem_cons_self m rest⟩
    · rw [if_neg hm] at h
      rcases ih (m :: seen) n h with ⟨hseen, hmem⟩ | hcount
      · rcases List.mem_cons.mp hseen with hcase | hcase
        · subst hcase
          have h1 : 0 < rest.count n := List.count_pos_iff.mpr hmem
          have h2 : (n :: rest).count n = rest.count n + 1 := by
            simp [List.count_cons]
          exact Or.inr (by omega)
        · exact Or.inl ⟨hcase, List.mem_cons_of_mem m hmem⟩
      · have h2 : rest.count n ≤ (m :: rest).count n := by
          rw [List.count_cons]
          omega
        exact Or.inr (by omega)

/-- C3: when two distinct positional arguments derive the same identifier,
template execution fails with the duplicate message naming an identifier
derived at least twice, and it does so for every file system and every
compressor, so before any payload byte is read or encoded; doIt then
returns the same error and no document. -/
theorem duplicate_identifier_aborts (c : config) (i j : Nat)
    (hi : i < c.Args.length) (hj : j < c.Args.length) (hij : i ≠ j)
    (_hpaths : c.Args.get ⟨i, hi⟩ ≠ c.Args.get ⟨j, hj⟩)
    (hfunc : file.Func { cfg := c, Path := c.Args.get ⟨i, hi⟩ }
           = file.Func { cfg := c, Path := c.Args.get ⟨j, hj⟩ }) :
    ∃ name,
      2 ≤ (c.Args.map (fun a => file.Func { cfg := c, Path := a })).count name
      ∧ (∀ deflate fs, execute deflate fs c = .error (dupMsg name))
      ∧ (∀ deflate fs fmtr g, doIt deflate fs fmtr c g = .error (dupMsg name)) := by
  set L := c.Args.map (fun a => file.Func { cfg := c, Path := a }) with hL
  have hiL : i < L.length := by simpa [hL] using hi
  have hjL : j < L.length := by simpa [hL] using hj
  have hdup : L.get ⟨i, hiL⟩ = L.get ⟨j, hjL⟩ := by
    simp only [hL, List.get_eq_getElem, List.getElem_map]
    simpa [List.get_eq_getElem] using hfunc
  have hnotnodup : ¬ L.Nodup := by
    intro hnd
    have := (List.Nodup.get_inj_iff hnd).mp hdup
    exact hij (congrArg Fin.val this)
  have hFiles : ((c.Args.map (fun a => ({ cfg := c, Path := a } : file))).map file.Func) = L := by
    simp [hL, List.map_map, Function.comp]
  cases hfd : findDup L [] with
  | none => exact absurd (findDup_none_strong L [] hfd).1 hnotnodup
  | some n =>
    rcases findDup_some_count L [] n hfd with ⟨hseen, _⟩ | hcount
    · exact absurd hseen (List.not_mem_nil n)
    · have hex : ∀ deflate fs, execute deflate fs c = .error (dupMsg n) := by
        intro deflate fs
        simp only [execute, config.Files]
        rw [hFiles, hfd]
      refine ⟨n, hcount, hex, fun deflate fs fmtr g => ?_⟩
      unfold doIt
      rw [hex deflate fs]

/-- Run with the two positional arguments a.txt and a.TXT, which case fold
to the same derived identifier. -/
def cDup : config :=
  { Package := str "main", PrefixStr := [], SuffixStr := [],
    Args := [str "a.txt", str "a.TXT"], Compress := true,
    CompressLevel := -1 }

/-- Witness for C3: paths a.txt and a.TXT case fold to the same derived
identifier and abort generation. -/
theorem duplicate_identifier_aborts_witness :
    ∃ name,
      2 ≤ (cDup.Args.map (fun a => file.Func { cfg := cDup, Path := a })).count name
      ∧ (∀ deflate fs, execute deflate fs cDup = .error (dupMsg name))
      ∧ (∀ deflate fs fmtr g, doIt deflate fs fmtr cDup g = .error (dupMsg name)) :=
  duplicate_identifier_aborts cDup
    0 1 (by decide) (by decide) (by decide) (by decide) (by decide)

/-- Segment containment: the needle occurs contiguously inside the hay. -/
def containsSeg (needle : List Nat) : List Nat → Bool
  | [] => needle.isEmpty
  | c :: t => needle.isPrefixOf (c :: t) || containsSeg needle t

/-- The formatting failure claim as stated: whenever the template rendered
a document and the formatter then rejects it, doIt fails with an error
that carries the unformatted document inside it. -/
def formatterClaim : Prop :=
  ∀ (deflate : Int → List Nat → List Nat) (fs : FS)
    (fmtr : List Nat → Except (List Nat) (List Nat)) (c : config)
    (doc so e : List Nat),
    execute deflate fs c = .ok (doc, so) → fmtr doc = .error e →
    ∃ e2, doIt deflate fs fmtr c true = .error e2 ∧ containsSeg doc e2 = true

/-- Run with one positional argument a, compression off. -/
def cOne : config :=
  { Package := str "p", PrefixStr := [], SuffixStr := [],
    Args := [str "a"], Compress := false, CompressLevel := -1 }

/-- The document the template renders for cOne over a file system that
returns empty contents for every path. -/
def docOne : List Nat :=
  match execute (fun _ d => d) (fun _ => .ok []) cOne with
  | .ok (d, _) => d
  | .error _ => []

/-- C6 counterexample: a formatter that fails with an empty error makes
doIt fail with exactly that empty error, which cannot carry the nonempty
unformatted document, so the rendered text is not surfaced as an error
detail. -/
theorem format_error_text_claim_false : ¬ formatterClaim := by
  intro h
  have hx : execute (fun _ d => d) (fun _ => .ok []) cOne = .ok (docOne, [10]) := rfl
  obtain ⟨e2, he, hcont⟩ :=
    h (fun _ d => d) (fun _ => .ok []) (fun _ => .error []) cOne docOne [10] []
      hx rfl
  have hdo : doIt (fun _ d => d) (fun _ => .ok []) (fun _ => .error []) cOne true
      = .error [] := by
    simp [doIt, hx]
  rw [hdo] at he
  have he2 : ([] : List Nat) = e2 := by
    simpa using he
  rw [← he2] at hcont
  exact absurd hcont (by decide)

/-- C6 amended: when formatting is explicitly disabled doIt returns the
unformatted text as a successful result, and when the formatter fails doIt
fails with exactly the error the formatter produced, the unformatted text
not attached to it. -/
theorem format_error_propagates_amended (deflate : Int → List Nat → List Nat)
    (fs : FS) (fmtr : List Nat → Except (List Nat) (List Nat)) (c : config)
    (doc so e : List Nat) (hx : execute deflate fs c = .ok (doc, so)) :
    doIt deflate fs fmtr c false = .ok doc
    ∧ (fmtr doc = .error e → doIt deflate fs fmtr c true = .error e) := by
  constructor
  · simp [doIt, hx]
  · intro hf
    simp [doIt, hx, hf]

/-- Witness for the amended C6 statement on a concrete run and a concrete
failing formatter. -/
theorem format_error_propagates_amended_witness :
    doIt (fun _ d => d) (fun _ => Except.ok []) (fun _ => Except.error (str "x"))
      cOne false = .ok docOne
    ∧ ((fun _ => Except.error (str "x") :
          List Nat → Except (List Nat) (List Nat)) docOne = Except.error (str "x") →
        doIt (fun _ d => d) (fun _ => Except.ok [])
          (fun _ => Except.error (str "x")) cOne true = .error (str "x")) :=
  format_error_propagates_amended (fun _ d => d) (fun _ => Except.ok [])
    (fun _ => Except.error (str "x")) cOne docOne [10] (str "x") rfl

/-- Outcome of the os.Stat call on the output path. -/
inductive StatResult where
  | found
  | notExist
  | otherError
  deriving DecidableEq

/-- The exists helper of datacode.go (named exists there; that word is a
Lean keyword): true on a successful stat, false when the error is the not
exist one, and a panic, modelled as none, on any other stat error. -/
def existsCheck : StatResult → Option Bool
  | .found => some true
  | .notExist => some false
  | .otherError => none

/-- The command line flag values of datacode.go. -/
structure flags where
  out : List Nat
  prefixFlag : List Nat
  suffixFlag : List Nat
  compress : Bool
  override : List Nat
  gofmt : Bool
  level : Int
  force : Bool
  deriving DecidableEq

/-- Possible ends of main: the usage exit on zero arguments, the fatal
message for an existing output file, the panic inside the exists helper, a
fatal package resolution or generation error, or an output file written
with the rendered bytes. -/
inductive MainResult where
  | usageExit
  | existsFatal
  | statPanic
  | pkgFatal (e : List Nat)
  | genFatal (e : List Nat)
  | wrote (data : List Nat)
  deriving DecidableEq

/-- Process exit code of each outcome: os.Exit with minus one leaves the
process with status 255, log.Fatal exits with 1, a Go panic exits with 2,
success with 0. -/
def exitCode : MainResult → Nat
  | .usageExit => 255
  | .existsFatal => 1
  | .statPanic => 2
  | .pkgFatal _ => 1
  | .genFatal _ => 1
  | .wrote _ => 0

/-- True only when main reached the final WriteFile of the output path. -/
def writesOutput : MainResult → Bool
  | .wrote _ => true
  | _ => false

/-- Package name resolution of main: the override flag when set, else the
result of the external resolver (build.ImportDir on the output
directory). -/
def pkgResolve (fl : flags) (resolver : Except (List Nat) (List Nat)) :
    Except (List Nat) (List Nat) :=
  if fl.override.isEmpty then resolver else .ok fl.override

/-- The config value main builds from the flags, the resolved package name
and the positional arguments. -/
def cfgOf (fl : flags) (args : List (List Nat)) (p : List Nat) : config :=
  { Package := p, PrefixStr := fl.prefixFlag, SuffixStr := fl.suffixFlag,
    Args := args, Compress := fl.compress, CompressLevel := fl.level }

/-- main from datacode.go. The resolver argument models build.ImportDir on
the directory of the output path, outStat models os.Stat on the output
path, and the final WriteFile is modelled as succeeding. The guard not
force and exists short circuits: with force set the exists helper is never
called, which the nested if mirrors. -/
def mainModel (deflate : Int → List Nat → List Nat) (fs : FS)
    (fmtr : List Nat → Except (List Nat) (List Nat))
    (resolver : Except (List Nat) (List Nat)) (fl : flags)
    (args : List (List Nat)) (outStat : StatResult) : MainResult :=
  if args.isEmpty then .usageExit
  else
    match (if fl.force then some false else existsCheck outStat) with
    | none => .statPanic
    | some true => .existsFatal
    | some false =>
      match pkgResolve fl resolver with
      | .error e => .pkgFatal e
      | .ok p =>
        match doIt deflate fs fmtr (cfgOf fl args p) fl.gofmt with
        | .error e => .genFatal e
        | .ok data => .wrote data

/-- C7: with the output path present and the force flag unset, main aborts
with the exists fatal outcome whatever the file system, compressor,
formatter and resolver would have done, writes nothing and exits non zero;
with force set the stat outcome is never consulted and a successful
pipeline ends in the overwrite of the output path. -/
theorem force_overwrite_gate (deflate : Int → List Nat → List Nat) (fs : FS)
    (fmtr : List Nat → Except (List Nat) (List Nat))
    (resolver : Except (List Nat) (List Nat)) (fl : flags)
    (args : List (List Nat)) (hargs : args ≠ []) :
    (fl.force = false →
      mainModel deflate fs fmtr resolver fl args .found = .existsFatal
      ∧ writesOutput (mainModel deflate fs fmtr resolver fl args .found) = false
      ∧ exitCode (mainModel deflate fs fmtr resolver fl args .found) ≠ 0)
    ∧ (fl.force = true →
      ∀ st : StatResult,
        mainModel deflate fs fmtr resolver fl args st
          = mainModel deflate fs fmtr resolver fl args .notExist
        ∧ ∀ p data,
            pkgResolve fl resolver = .ok p →
            doIt deflate fs fmtr (cfgOf fl args p) fl.gofmt = .ok data →
            mainModel deflate fs fmtr resolver fl args st = .wrote data
            ∧ writesOutput (mainModel deflate fs fmtr resolver fl args st) = true) := by
  have hne : args.isEmpty = false := by
    cases args with
    | nil => exact absurd rfl hargs
    | cons a t => rfl
  constructor
  · intro hforce
    simp [mainModel, hne, hforce, existsCheck, writesOutput, exitCode]
  · intro hforce st
    constructor
    · simp [mainModel, hne, hforce]
    · intro p data hp hdo
      constructor
      · simp [mainModel, hne, hforce, hp, hdo]
      · simp [mainModel, hne, hforce, hp, hdo, writesOutput]

/-- Flag values for the concrete main runs below: default output name,
package override set, formatting off, force off. -/
def flEx : flags :=
  { out := str "data.go", prefixFlag := [], suffixFlag := [],
    compress := false, override := str "p", gofmt := false,
    level := -1, force := false }

/-- Witness for C7 on concrete flag values. -/
theorem force_overwrite_gate_witness :
    (flEx.force = false →
      mainModel (fun _ d => d) (fun _ => Except.ok [])
        (fun d => Except.ok d) (Except.ok (str "p")) flEx
        [str "a"] .found = .existsFatal
      ∧ writesOutput (mainModel (fun _ d => d) (fun _ => Except.ok [])
          (fun d => Except.ok d) (Except.ok (str "p")) flEx
          [str "a"] .found) = false
      ∧ exitCode (mainModel (fun _ d => d) (fun _ => Except.ok [])
          (fun d => Except.ok d) (Except.ok (str "p")) flEx
          [str "a"] .found) ≠ 0)
    ∧ (flEx.force = true →
      ∀ st : StatResult,
        mainModel (fun _ d => d) (fun _ => Except.ok [])
          (fun d => Except.ok d) (Except.ok (str "p")) flEx [str "a"] st
          = mainModel (fun _ d => d) (fun _ => Except.ok [])
              (fun d => Except.ok d) (Except.ok (str "p")) flEx
              [str "a"] .notExist
        ∧ ∀ p data,
            pkgResolve flEx (Except.ok (str "p")) = Except.ok p →
            doIt (fun _ d => d) (fun _ => Except.ok []) (fun d => Except.ok d)
              (cfgOf flEx [str "a"] p) flEx.gofmt = Except.ok data →
            mainModel (fun _ d => d) (fun _ => Except.ok [])
              (fun d => Except.ok d) (Except.ok (str "p")) flEx
              [str "a"] st = .wrote data
            ∧ writesOutput (mainModel (fun _ d => d) (fun _ => Except.ok [])
                (fun d => Except.ok d) (Except.ok (str "p")) flEx
                [str "a"] st) = true) :=
  force_overwrite_gate (fun _ d => d) (fun _ => Except.ok [])
    (fun d => Except.ok d) (Except.ok (str "p")) flEx [str "a"] (by decide)

/-- C8: with zero positional arguments main prints the usage text and
exits with a non zero status without writing an output file, whatever the
other inputs are. -/
theorem empty_args_usage_exit (deflate : Int → List Nat → List Nat) (fs : FS)
    (fmtr : List Nat → Except (List Nat) (List Nat))
    (resolver : Except (List Nat) (List Nat)) (fl : flags) (st : StatResult) :
    mainModel deflate fs fmtr resolver fl [] st = .usageExit
    ∧ exitCode (mainModel deflate fs fmtr resolver fl [] st) ≠ 0
    ∧ writesOutput (mainModel deflate fs fmtr resolver fl [] st) = false := by
  refine ⟨rfl, ?_, rfl⟩
  simp [mainModel, exitCode]

/-- C10: a stat outcome that is neither success nor the not exist error
makes the exists helper panic instead of returning a value or a message,
and with force unset main then dies from that panic, exiting like a Go
panic does rather than with a diagnostic. -/
theorem stat_error_panics (deflate : Int → List Nat → List Nat) (fs : FS)
    (fmtr : List Nat → Except (List Nat) (List Nat))
    (resolver : Except (List Nat) (List Nat)) (fl : flags)
    (args : List (List Nat)) (hargs : args ≠ []) (hforce : fl.force = false) :
    existsCheck .otherError = none
    ∧ mainModel deflate fs fmtr resolver fl args .otherError = .statPanic
    ∧ exitCode (mainModel deflate fs fmtr resolver fl args .otherError) = 2
    ∧ writesOutput (mainModel deflate fs fmtr resolver fl args .otherError) = false := by
  have hne : args.isEmpty = false := by
    cases args with
    | nil => exact absurd rfl hargs
    | cons a t => rfl
  refine ⟨rfl, ?_, ?_, ?_⟩ <;>
    simp [mainModel, hne, hforce, existsCheck, exitCode, writesOutput]

/-- Witness for C10 on concrete flag values. -/
theorem stat_error_panics_witness :
    existsCheck .otherError = none
    ∧ mainModel (fun _ d => d) (fun _ => Except.ok [])
        (fun d => Except.ok d) (Except.ok (str "p")) flEx
        [str "a"] .otherError = .statPanic
    ∧ exitCode (mainModel (fun _ d => d) (fun _ => Except.ok [])
        (fun d => Except.ok d) (Except.ok (str "p")) flEx
        [str "a"] .otherError) = 2
    ∧ writesOutput (mainModel (fun _ d => d) (fun _ => Except.ok [])
        (fun d => Except.ok d) (Except.ok (str "p")) flEx
        [str "a"] .otherError) = false :=
  stat_error_panics (fun _ d => d) (fun _ => Except.ok [])
    (fun d => Except.ok d) (Except.ok (str "p")) flEx
    [str "a"] (by decide) rfl

/-- A list is a segment of itself followed by anything. -/
theorem containsSeg_self_append (a v : List Nat) :
    containsSeg a (a ++ v) = true := by
  cases hav : a ++ v with
  | nil =>
    show a.isEmpty = true
    cases a with
    | nil => rfl
    | cons x t => simp at hav
  | cons c t =>
    show (a.isPrefixOf (c :: t) || containsSeg a t) = true
    rw [← hav]
    have h1 : a.isPrefixOf (a ++ v) = true :=
      List.isPrefixOf_iff_prefix.mpr (List.prefix_append a v)
    simp [h1]

/-- Anything of the shape before, the needle, after contains the needle as
a segment. -/
theorem containsSeg_append (a u v : List Nat) :
    containsSeg a (u ++ a ++ v) = true := by
  induction u with
  | nil => simpa using containsSeg_self_append a v
  | cons c u ih =>
    have h1 : (c :: u) ++ a ++ v = c :: (u ++ a ++ v) := by simp
    rw [h1]
    show (a.isPrefixOf (c :: (u ++ a ++ v)) || containsSeg a (u ++ a ++ v)) = true
    rw [ih]
    simp

/-- A successful file.Raw always pairs the literal with the printed line,
the literal followed by the newline. -/
theorem raw_shape (deflate : Int → List Nat → List Nat) (fs : FS) (f : file)
    (pr : List Nat × List Nat) (h : file.Raw deflate fs f = .ok pr) :
    pr.2 = pr.1 ++ [10] := by
  unfold file.Raw at h
  cases hd : file.data deflate fs f with
  | error e => rw [hd] at h; exact absurd h (by simp)
  | ok d =>
    rw [hd] at h
    have h2 := Except.ok.inj h
    rw [← h2]

/-- Every file of a successfully rendered range contributes its function
text and its printed line, built around the same literal. -/
theorem renderAll_mem (deflate : Int → List Nat → List Nat) (fs : FS) :
    ∀ (l : List file) (ps : List (List Nat × List Nat)),
      renderAll deflate fs l = .ok ps →
      ∀ f ∈ l, ∃ lit,
        file.Raw deflate fs f = .ok (lit, lit ++ [10])
        ∧ (funcTextPre (file.Func f) ++ lit ++ funcTextPost f.cfg.Compress,
           lit ++ [10]) ∈ ps := by
  intro l
  induction l with
  | nil => intro ps _ f hf; exact absurd hf (List.not_mem_nil f)
  | cons f0 rest ih =>
    intro ps h f hf
    unfold renderAll at h
    cases hr : file.Raw deflate fs f0 with
    | error e => rw [hr] at h; exact absurd h (by simp)
    | ok pr =>
      obtain ⟨lit, line⟩ := pr
      have hline : line = lit ++ [10] := raw_shape deflate fs f0 (lit, line) hr
      subst hline
      rw [hr] at h
      cases hrest : renderAll deflate fs rest with
      | error e => rw [hrest] at h; exact absurd h (by simp)
      | ok ps2 =>
        rw [hrest] at h
        have hps := Except.ok.inj h
        rcases List.mem_cons.mp hf with rfl | hmem
        · exact ⟨lit, hr, by rw [← hps]; exact List.mem_cons_self _ _⟩
        · obtain ⟨lit2, hRaw2, hmem2⟩ := ih ps2 hrest f hmem
          exact ⟨lit2, hRaw2, by rw [← hps]; exact List.mem_cons_of_mem _ hmem2⟩

/-- C9: in every successful run each input file had its whole encoded
literal printed to standard output with a trailing newline by file.Raw, a
side effect in addition to the rendered document, which carries the same
literal inside the generated function body. -/
theorem raw_prints_literal_stdout (deflate : Int → List Nat → List Nat)
    (fs : FS) (c : config) (files : List file) (doc so : List Nat)
    (hfiles : c.Files = .ok files)
    (hx : execute deflate fs c = .ok (doc, so)) :
    ∀ f ∈ files, ∃ lit,
      file.Raw deflate fs f = .ok (lit, lit ++ [10])
      ∧ containsSeg (lit ++ [10]) so = true
      ∧ containsSeg lit doc = true := by
  intro f hf
  cases hra : renderAll deflate fs files with
  | error e =>
    simp only [execute, hfiles, hra] at hx
    exact absurd hx (by simp)
  | ok ps =>
    simp only [execute, hfiles, hra] at hx
    have hpair := Except.ok.inj hx
    have hdoc : headerText c.Package c.Compress ++ (ps.map Prod.fst).flatten
        ++ str "\n" = doc := congrArg Prod.fst hpair
    have hso : (ps.map Prod.snd).flatten = so := congrArg Prod.snd hpair
    obtain ⟨lit, hRaw, hmem⟩ := renderAll_mem deflate fs files ps hra f hf
    refine ⟨lit, hRaw, ?_, ?_⟩
    · have hmem2 : lit ++ [10] ∈ ps.map Prod.snd :=
        List.mem_map.mpr ⟨_, hmem, rfl⟩
      obtain ⟨s, t, hst⟩ := List.append_of_mem hmem2
      rw [← hso, hst, List.flatten_append, List.flatten_cons]
      convert containsSeg_append (lit ++ [10]) s.flatten t.flatten using 2
      simp [List.append_assoc]
    · have hmem2 : (funcTextPre (file.Func f) ++ lit
          ++ funcTextPost f.cfg.Compress) ∈ ps.map Prod.fst :=
        List.mem_map.mpr ⟨_, hmem, rfl⟩
      obtain ⟨s, t, hst⟩ := List.append_of_mem hmem2
      rw [← hdoc, hst, List.flatten_append, List.flatten_cons]
      convert containsSeg_append lit
          (headerText c.Package c.Compress ++ s.flatten
            ++ funcTextPre (file.Func f))
          (funcTextPost f.cfg.Compress ++ t.flatten ++ str "\n") using 2
      simp [List.append_assoc]

/-- Witness for C9 on the concrete one file run of cOne. -/
theorem raw_prints_literal_stdout_witness :
    ∃ lit,
      file.Raw (fun _ d => d) (fun _ => Except.ok [])
        { cfg := cOne, Path := str "a" } = .ok (lit, lit ++ [10])
      ∧ containsSeg (lit ++ [10]) [10] = true
      ∧ containsSeg lit docOne = true :=
  raw_prints_literal_stdout (fun _ d => d) (fun _ => Except.ok []) cOne
    [{ cfg := cOne, Path := str "a" }] docOne [10] rfl rfl
    { cfg := cOne, Path := str "a" } (List.mem_singleton.mpr rfl)
